import Mathlib

/-!
Shallow embedding of the network-simulation core of `src/script.js`
(a browser demo of a peer-to-peer network rendered with Babylon.js).

Modelling conventions:
* JS `number` values that carry simulation state (timers, speed, random
  draws) are embedded as `ℚ`; the control logic of the program only
  compares and adds such values, so exact rational arithmetic is the
  standard real-semantics reading of the float code.
* a JS `Set` of node ids is embedded as a duplicate-free `List String`
  in insertion order (`Set.add` appends when absent, `Set.delete`
  removes the element; a JS set never holds duplicates, so deletion is
  a filter).
* 3-D positions are always produced by the program as points of the
  `y = 0` plane of the form `(r·cos θ, 0, r·sin θ)`; they are embedded
  by the pair `(r, θ/π)` (`RingPos`), since the program never computes
  with the cartesian coordinates outside the renderer, except for the
  Euclidean `minDistance` test, which is abstracted as an oracle
  predicate (floating-point trigonometry is render-side).
* `Math.random()` draws and `Date.now()` reads are inputs of each
  operation, supplied through environment records.
* renderer calls (packets, progress rings, instruction text) are
  embedded as an `Effect` list emitted by the tick.
-/

/-- JS remainder `a % b` (used by the program only with a nonnegative
dividend and a positive divisor, where it agrees with `a - b·⌊a/b⌋`;
`Rat.floor` is used rather than the `⌊⌋` instance so the definition
evaluates by kernel reduction). -/
def jsMod (a b : ℚ) : ℚ := a - b * ((a / b).floor : ℚ)

/-- JS array indexing `l[i]` with an integer index: out-of-range reads
yield no element. -/
def jsIndex {α : Type} (l : List α) (i : ℤ) : Option α :=
  if 0 ≤ i then l[i.toNat]? else none

/-- Embeds `Math.floor(u * n)`, the random-index idiom of the program. -/
def randIndex (u : ℚ) (n : ℕ) : ℤ := (u * (n : ℚ)).floor

/-- JS `Set.prototype.add`: append the element when it is absent. -/
def setAdd (l : List String) (x : String) : List String :=
  if x ∈ l then l else l ++ [x]

/-- JS `Set.prototype.delete`: a JS set holds no duplicates, so removing
the element coincides with filtering it out. -/
def setRemove (l : List String) (x : String) : List String :=
  l.filter (fun y => y ≠ x)

/-- A position on the `y = 0` plane given by ring radius `r` and angle
`anglePi · π`; `new BABYLON.Vector3(r*cos θ, 0, r*sin θ)` is embedded as
`⟨r, θ/π⟩`. -/
structure RingPos where
  r : ℚ
  anglePi : ℚ
deriving DecidableEq, Repr

/-- The state a `BitcoinNode` object carries for the simulation core:
its id and its connection set (`this.connections`), plus the mesh
position used by the placement distance test. -/
structure BitcoinNode where
  nodeId : String
  connections : List String
  pos : RingPos
deriving DecidableEq, Repr

/-- The ring radius used throughout `createScene` (`const radius = 5`). -/
def sceneRadius : ℚ := 5

/-- Embeds `BitcoinNode.prototype.connectTo` lifted to the node array:
`sourceNode.connectTo(targetNode)` with `sourceNode` the node of id `a`.
The guard is `this.connections.has(otherNode.nodeId)` only; on the other
branch both `this.connections.add(otherNode.nodeId)` and
`otherNode.connections.add(this.nodeId)` run (there is no self-check in
the source). -/
def connectTo (net : List BitcoinNode) (a b : String) : List BitcoinNode :=
  match net.find? (fun n => n.nodeId = a) with
  | none => net
  | some na =>
    if b ∈ na.connections then net
    else net.map (fun n =>
      if n.nodeId = a then { n with connections := setAdd n.connections b }
      else if n.nodeId = b then { n with connections := setAdd n.connections a }
      else n)

/-- Embeds the node-removal path of `handleNetworkChanges`:
`nodes.splice(index, 1)` followed by `node.shutdown(scene, nodes)`,
whose loop removes the departed node's id from every remaining node's
connection set. Out-of-range indices leave the array unchanged. -/
def removeNodeAt (net : List BitcoinNode) (i : ℤ) : List BitcoinNode :=
  match jsIndex net i with
  | none => net
  | some v =>
    (net.eraseIdx i.toNat).map
      (fun n => { n with connections := setRemove n.connections v.nodeId })

/-- Embeds the random-connected-peer idiom
`Array.from(node.connections)[Math.floor(Math.random() * size)]` used by
the syncing and processing behaviors. -/
def pickRandomConnectedPeer (n : BitcoinNode) (u : ℚ) : Option String :=
  jsIndex n.connections (randIndex u n.connections.length)

/-- Decimal digits of `n` (least significant first), with an explicit
structural fuel so that the definition evaluates by kernel reduction. -/
def natDigitsFuel : ℕ → ℕ → List ℕ
  | 0, _ => []
  | fuel + 1, n => if n = 0 then [] else n % 10 :: natDigitsFuel fuel (n / 10)

/-- Characters of the decimal rendering of `n`, as produced by a JS
template literal `${n}` for a nonnegative integer. -/
def natChars (n : ℕ) : List Char :=
  if n = 0 then ['0']
  else ((natDigitsFuel n n).map Nat.digitChar).reverse

/-- The node id `` `node-${t}` `` built from a `Date.now()` reading `t`
(the seeds `"node-0"` and `"node-1"` are the instances `t = 0`, `t = 1`). -/
def nodeIdOf (t : ℕ) : String :=
  String.mk (['n', 'o', 'd', 'e', '-'] ++ natChars t)

/-- Embeds the node-creation path of `handleNetworkChanges`:
`nodes.push(new BitcoinNode(scene, position, `node-${Date.now()}`))`;
the constructor starts with `this.connections = new Set()`. -/
def addNode (net : List BitcoinNode) (p : RingPos) (now : ℕ) : List BitcoinNode :=
  net ++ [{ nodeId := nodeIdOf now, connections := [], pos := p }]

/-- Value of a decimal digit list (least significant digit first), used
to show the decimal rendering of ids is injective. -/
def ofDecDigits : List ℕ → ℕ
  | [] => 0
  | d :: l => d + 10 * ofDecDigits l

example : nodeIdOf 0 = "node-0" := by decide
example : nodeIdOf 1 = "node-1" := by decide
example : nodeIdOf 1234 = "node-1234" := by decide
example : connectTo [⟨"a", [], ⟨5, 0⟩⟩, ⟨"b", [], ⟨5, 1⟩⟩] "a" "b" =
    [⟨"a", ["b"], ⟨5, 0⟩⟩, ⟨"b", ["a"], ⟨5, 1⟩⟩] := by decide
example : removeNodeAt [⟨"a", ["b"], ⟨5, 0⟩⟩, ⟨"b", ["a"], ⟨5, 1⟩⟩] 1 =
    [⟨"a", [], ⟨5, 0⟩⟩] := by decide

/-- The four values of `PHASES` in the source. -/
inductive Phase
  | discovery
  | syncing
  | processing
  | networkChanges
deriving DecidableEq, Repr

/-- The successor of each phase in the source's fixed transition cycle. -/
def nextPhase : Phase → Phase
  | .discovery => .syncing
  | .syncing => .processing
  | .processing => .networkChanges
  | .networkChanges => .discovery

/-- The exit threshold (in ms of accumulated phase time) each handler
and switch case compares `phaseTimer` against. -/
def phaseThreshold : Phase → ℚ
  | .discovery => 5000
  | .syncing => 8000
  | .processing => 6000
  | .networkChanges => 7000

/-- The `simulationState` object of `createScene`. -/
structure SimulationState where
  speed : ℚ
  isRunning : Bool
  initialNodeCount : ℚ
  nodeCount : ℕ
  currentStep : ℚ
  currentPhase : Phase
  isDarkMode : Bool
  phaseTimer : ℚ
deriving DecidableEq, Repr

/-- The mutable simulation context of `createScene`: the
`simulationState` object together with the `nodes` array. -/
structure World where
  state : SimulationState
  nodes : List BitcoinNode
deriving DecidableEq, Repr

/-- The startup values of `simulationState` and the single seed node
`new BitcoinNode(scene, new BABYLON.Vector3(radius, 0, 0), "node-0")`. -/
def initialWorld : World :=
  { state :=
      { speed := 1
        isRunning := true
        initialNodeCount := 1
        nodeCount := 1
        currentStep := 0
        currentPhase := .networkChanges
        isDarkMode := true
        phaseTimer := 6900 }
    nodes := [{ nodeId := "node-0", connections := [], pos := ⟨sceneRadius, 0⟩ }] }

/-- Renderer and timer requests the tick emits; mutations of the
`World` itself are returned as the new `World`. `phaseChanged` embeds
the `updateInstructions()` call made on each phase transition. -/
inductive Effect
  | phaseChanged (p : Phase)
  | schedulePeerConnect (src tgt : String)
  | syncProgress (id : String) (progress : ℚ)
  | blockPacket (src tgt : String)
  | txPacket (src tgt : String)
  | processingFlag (id : String)
deriving DecidableEq, Repr

/-- Whether an effect is the phase-change notification. -/
def isPhaseNotice : Effect → Bool
  | .phaseChanged _ => true
  | _ => false

/-- The random draws, clock reading and elapsed-time delta one tick of
the render loop consumes, plus the oracle for the floating-point
placement distance test. -/
structure TickEnv where
  delta : ℚ
  discSrcU : ℚ
  discTgtU : ℚ
  syncU : ℕ → ℚ
  syncPeerU : ℕ → ℚ
  procSrcU : ℚ
  procPeerU : ℚ
  ncCoin : ℚ
  ncRemoveU : ℚ
  ncTooClose : ℚ → Bool
  ncAngleU : ℕ → ℚ
  ncFallbackU : ℚ
  ncNow : ℕ

/-- The cadence guard of `handleDiscoveryPhase`:
`simulationState.currentStep % (3 / simulationState.speed) < 1`. -/
def discoveryCadence (st : SimulationState) : Bool :=
  decide (jsMod st.currentStep (3 / st.speed) < 1)

/-- The cadence guard of `handleProcessingPhase`:
`simulationState.currentStep % (5 / simulationState.speed) < 1`. -/
def processingCadence (st : SimulationState) : Bool :=
  decide (jsMod st.currentStep (5 / st.speed) < 1)

/-- The body of `handleDiscoveryPhase` before its exit check: under the
cadence guard, pick two random nodes; when they are distinct objects
and not already connected, request a peer packet and schedule the
delayed `connectTo` (the `setTimeout` callback); the synchronous tick
itself mutates no simulation state here. -/
def discBody (w : World) (e : TickEnv) : List Effect :=
  if discoveryCadence w.state then
    match jsIndex w.nodes (randIndex e.discSrcU w.nodes.length),
        jsIndex w.nodes (randIndex e.discTgtU w.nodes.length) with
    | some s, some t =>
      if randIndex e.discSrcU w.nodes.length ≠ randIndex e.discTgtU w.nodes.length
          ∧ t.nodeId ∉ s.connections then
        [.schedulePeerConnect s.nodeId t.nodeId]
      else []
    | _, _ => []
  else []

/-- The body of `handleSyncingPhase` before its exit check: every node
gets a sawtooth progress update from `phaseTimer % 2000 / 2000`, and
with probability `0.05 · speed` a node with connections sends a block
packet to a random connected peer after the bidirectional check. -/
def syncBody (w : World) (e : TickEnv) : List Effect :=
  (List.range w.nodes.length).flatMap (fun i =>
    match w.nodes[i]? with
    | none => []
    | some node =>
      Effect.syncProgress node.nodeId (jsMod w.state.phaseTimer 2000 / 2000) ::
      (if e.syncU i < 1 / 20 * w.state.speed ∧ 0 < node.connections.length then
        match jsIndex node.connections (randIndex (e.syncPeerU i) node.connections.length) with
        | none => []
        | some tid =>
          match w.nodes.find? (fun n => n.nodeId = tid) with
          | none => []
          | some tnode =>
            if tid ∈ node.connections ∧ node.nodeId ∈ tnode.connections then
              [.blockPacket node.nodeId tnode.nodeId]
            else []
      else []))

/-- The body of `handleProcessingPhase` before its exit check: under
the cadence guard pick a random source; if it has connections, pick a
random connected peer, and after the bidirectional check send a
transaction packet and flag the source as processing. -/
def procBody (w : World) (e : TickEnv) : List Effect :=
  if processingCadence w.state then
    match jsIndex w.nodes (randIndex e.procSrcU w.nodes.length) with
    | none => []
    | some src =>
      if 0 < src.connections.length then
        match jsIndex src.connections (randIndex e.procPeerU src.connections.length) with
        | none => []
        | some tid =>
          match w.nodes.find? (fun n => n.nodeId = tid) with
          | none => []
          | some tnode =>
            if tid ∈ src.connections ∧ src.nodeId ∈ tnode.connections then
              [.txPacket src.nodeId tnode.nodeId, .processingFlag src.nodeId]
            else []
        else []
  else []

/-- The `maxNodes` bound of `handleNetworkChanges`:
`Math.max(20, simulationState.initialNodeCount * 1.5)`. -/
def maxNodesOf (st : SimulationState) : ℚ :=
  max 20 (st.initialNodeCount * (3 / 2))

/-- The placement rejection loop of `handleNetworkChanges`, written as
structural recursion on the remaining permitted iterations (the JS
do-while runs `while (attempts < 10)`, so the call starts with
`fuel = 9`). `tc u` is the outcome of the Euclidean
`distance < minDistance` test against the existing nodes for the
candidate at angle `u·2π`; `us k` is the `Math.random()` draw of
iteration `k`. Returns the final value of `attempts` and the last
drawn `u`. -/
def placeGo (tc : ℚ → Bool) (us : ℕ → ℚ) : ℕ → ℕ → ℕ × ℚ
  | fuel, i =>
    if tc (us i) = false then (i, us i)
    else
      match fuel with
      | 0 => (i + 1, us i)
      | fuel' + 1 => placeGo tc us fuel' (i + 1)

/-- The whole placement computation of the node-add path: the bounded
rejection loop, then — only when all 10 attempts were rejected — the
fallback `alternateRadius = radius * (1 + Math.random() * 0.4)` reusing
the last angle, with no further distance check. Returns the final
`attempts` counter and the chosen position. -/
def findPlacement (tc : ℚ → Bool) (us : ℕ → ℚ) (fu : ℚ) : ℕ × RingPos :=
  if 10 ≤ (placeGo tc us 9 0).1 then
    ((placeGo tc us 9 0).1, ⟨sceneRadius * (1 + fu * (2 / 5)), 2 * (placeGo tc us 9 0).2⟩)
  else
    ((placeGo tc us 9 0).1, ⟨sceneRadius, 2 * (placeGo tc us 9 0).2⟩)

/-- The membership-mutation block of `handleNetworkChanges` (everything
before its exit check): on the `phaseTimer % 2000 < 20` cadence and
once at least 2 nodes exist, either remove a random node (only above
the 2-node floor) or, failing that coin/floor test, add a node below
`maxNodes` using the placement policy. -/
def ncBody (w : World) (e : TickEnv) : World :=
  if jsMod w.state.phaseTimer 2000 < 20 ∧ 2 ≤ w.nodes.length then
    if e.ncCoin < 1 / 2 ∧ 2 < w.nodes.length then
      let nodes1 := removeNodeAt w.nodes (randIndex e.ncRemoveU w.nodes.length)
      { state := { w.state with nodeCount := nodes1.length }, nodes := nodes1 }
    else if (w.nodes.length : ℚ) < maxNodesOf w.state then
      let nodes1 := addNode w.nodes (findPlacement e.ncTooClose e.ncAngleU e.ncFallbackU).2 e.ncNow
      { state := { w.state with nodeCount := nodes1.length }, nodes := nodes1 }
    else w
  else w

/-- The second node the exit path of the network-changes phase force-adds
when fewer than 2 nodes exist: `new BitcoinNode(scene, position, "node-1")`
at the fixed antipodal angle `Math.PI`. -/
def forcedSecondNode : BitcoinNode :=
  { nodeId := "node-1", connections := [], pos := ⟨sceneRadius, 1⟩ }

/-- The exit check shared (verbatim, twice) by the discovery, syncing and
processing handlers and their switch cases: past the threshold, move to
the next phase, zero the timer and call `updateInstructions()`. -/
def phaseExitCheck (w : World) (threshold : ℚ) (next : Phase) : World × List Effect :=
  if w.state.phaseTimer > threshold then
    ({ w with state := { w.state with currentPhase := next, phaseTimer := 0 } },
      [.phaseChanged next])
  else (w, [])

/-- The exit check of the network-changes phase (again written twice in
the source, in `handleNetworkChanges` and in its switch case): past
7000 ms, force-add the second node when fewer than 2 exist, then move
to discovery, zero the timer and call `updateInstructions()`. -/
def ncExitCheck (w : World) : World × List Effect :=
  if w.state.phaseTimer > 7000 then
    let w1 :=
      if w.nodes.length < 2 then
        { state := { w.state with nodeCount := (w.nodes ++ [forcedSecondNode]).length }
          nodes := w.nodes ++ [forcedSecondNode] }
      else w
    ({ w1 with state := { w1.state with currentPhase := .discovery, phaseTimer := 0 } },
      [.phaseChanged .discovery])
  else (w, [])

/-- The timer accumulation of a running tick:
`simulationState.phaseTimer += deltaTime * simulationState.speed`. -/
def tickAccum (w : World) (e : TickEnv) : World :=
  { w with state :=
      { w.state with phaseTimer := w.state.phaseTimer + e.delta * w.state.speed } }

/-- One run of the `scene.onBeforeRenderObservable` callback: bail out
when paused, accumulate `deltaTime · speed` into `phaseTimer`, dispatch
the current phase's handler (whose trailing transition check is
duplicated, dead, at the switch level — both occurrences are embedded). -/
def tick (w : World) (e : TickEnv) : World × List Effect :=
  if w.state.isRunning = false then (w, [])
  else
    match (tickAccum w e).state.currentPhase with
    | .discovery =>
      ((phaseExitCheck (phaseExitCheck (tickAccum w e) 5000 .syncing).1 5000 .syncing).1,
        discBody (tickAccum w e) e
          ++ (phaseExitCheck (tickAccum w e) 5000 .syncing).2
          ++ (phaseExitCheck (phaseExitCheck (tickAccum w e) 5000 .syncing).1 5000 .syncing).2)
    | .syncing =>
      ((phaseExitCheck (phaseExitCheck (tickAccum w e) 8000 .processing).1 8000 .processing).1,
        syncBody (tickAccum w e) e
          ++ (phaseExitCheck (tickAccum w e) 8000 .processing).2
          ++ (phaseExitCheck (phaseExitCheck (tickAccum w e) 8000 .processing).1 8000 .processing).2)
    | .processing =>
      ((phaseExitCheck (phaseExitCheck (tickAccum w e) 6000 .networkChanges).1 6000 .networkChanges).1,
        procBody (tickAccum w e) e
          ++ (phaseExitCheck (tickAccum w e) 6000 .networkChanges).2
          ++ (phaseExitCheck (phaseExitCheck (tickAccum w e) 6000 .networkChanges).1 6000 .networkChanges).2)
    | .networkChanges =>
      ((ncExitCheck (ncExitCheck (ncBody (tickAccum w e) e)).1).1,
        (ncExitCheck (ncBody (tickAccum w e) e)).2
          ++ (ncExitCheck (ncExitCheck (ncBody (tickAccum w e) e)).1).2)

/-- Folding the tick over a list of per-frame environments. -/
def ticks (w : World) (es : List TickEnv) : World :=
  es.foldl (fun w e => (tick w e).1) w

/-- A concrete environment (zero delta, zero draws, permissive oracle)
used by witnesses. -/
def trivialEnv : TickEnv :=
  { delta := 0, discSrcU := 0, discTgtU := 0, syncU := fun _ => 0, syncPeerU := fun _ => 0
    procSrcU := 0, procPeerU := 0, ncCoin := 0, ncRemoveU := 0
    ncTooClose := fun _ => false, ncAngleU := fun _ => 0, ncFallbackU := 0, ncNow := 0 }

/-- The startup state with the simulation paused. -/
def pausedWorld : World :=
  { initialWorld with state := { initialWorld.state with isRunning := false } }

/-- One membership mutation of the kind the running simulation performs
on the node array: a (possibly delayed) `connectTo` between two node
ids, or the splice-and-shutdown removal at an index. -/
inductive NetOp
  | connectOp (a b : String)
  | removeOp (i : ℤ)

/-- Apply one mutation to the node array. -/
def applyNetOp (net : List BitcoinNode) : NetOp → List BitcoinNode
  | .connectOp a b => connectTo net a b
  | .removeOp i => removeNodeAt net i

/-- Apply a sequence of mutations left to right. -/
def applyNetOps (net : List BitcoinNode) (ops : List NetOp) : List BitcoinNode :=
  ops.foldl applyNetOp net

/-- The symmetry invariant of the connection graph: no node lists a
neighbour that does not list it back. -/
def SymmetricNet (net : List BitcoinNode) : Prop :=
  ∀ a ∈ net, ∀ b ∈ net, b.nodeId ∈ a.connections → a.nodeId ∈ b.connections

/-- Well-formedness of a network state: node ids are pairwise distinct
(the spec's network is a mapping from node id to node). -/
def NodupIds (net : List BitcoinNode) : Prop :=
  (net.map BitcoinNode.nodeId).Nodup

theorem mem_setAdd {l : List String} {x y : String} :
    y ∈ setAdd l x ↔ y ∈ l ∨ y = x := by
  unfold setAdd
  split
  · next hx => exact ⟨Or.inl, fun h => h.elim id (fun hy => hy ▸ hx)⟩
  · simp

theorem self_mem_setAdd {l : List String} {x : String} : x ∈ setAdd l x :=
  mem_setAdd.mpr (Or.inr rfl)

theorem subset_setAdd {l : List String} {x : String} : l ⊆ setAdd l x :=
  fun _ h => mem_setAdd.mpr (Or.inl h)

theorem mem_setRemove {l : List String} {x y : String} :
    y ∈ setRemove l x ↔ y ∈ l ∧ y ≠ x := by
  simp [setRemove]

theorem jsIndex_eq_some {α : Type} {l : List α} {i : ℤ} {v : α}
    (h : jsIndex l i = some v) : l[i.toNat]? = some v := by
  unfold jsIndex at h
  split at h
  · exact h
  · exact absurd h (by simp)

theorem mem_of_jsIndex {α : Type} {l : List α} {i : ℤ} {v : α}
    (h : jsIndex l i = some v) : v ∈ l := by
  obtain ⟨hlt, rfl⟩ := List.getElem?_eq_some_iff.mp (jsIndex_eq_some h)
  exact List.getElem_mem hlt

/-- The update function `connectTo` maps over the array does not change
any node's id. -/
theorem connectTo_update_nodeId (a b : String) (n : BitcoinNode) :
    ((if n.nodeId = a then { n with connections := setAdd n.connections b }
      else if n.nodeId = b then { n with connections := setAdd n.connections a }
      else n) : BitcoinNode).nodeId = n.nodeId := by
  split
  · rfl
  · split <;> rfl

theorem connectTo_update_subset (a b : String) (n : BitcoinNode) :
    n.connections ⊆
      ((if n.nodeId = a then { n with connections := setAdd n.connections b }
        else if n.nodeId = b then { n with connections := setAdd n.connections a }
        else n) : BitcoinNode).connections := by
  split
  · exact subset_setAdd
  · split
    · exact subset_setAdd
    · exact fun _ h => h

theorem connectTo_update_mem (a b : String) (n : BitcoinNode) {y : String}
    (h : y ∈ ((if n.nodeId = a then { n with connections := setAdd n.connections b }
        else if n.nodeId = b then { n with connections := setAdd n.connections a }
        else n) : BitcoinNode).connections) :
    y ∈ n.connections ∨ (n.nodeId = a ∧ y = b) ∨ (n.nodeId = b ∧ y = a) := by
  split at h
  · next ha => exact (mem_setAdd.mp h).elim Or.inl (fun hy => Or.inr (Or.inl ⟨ha, hy⟩))
  · split at h
    · next hb => exact (mem_setAdd.mp h).elim Or.inl (fun hy => Or.inr (Or.inr ⟨hb, hy⟩))
    · exact Or.inl h

theorem connectTo_update_mem_left (a b : String) (n : BitcoinNode) (ha : n.nodeId = a) :
    b ∈ ((if n.nodeId = a then { n with connections := setAdd n.connections b }
        else if n.nodeId = b then { n with connections := setAdd n.connections a }
        else n) : BitcoinNode).connections := by
  rw [if_pos ha]
  exact self_mem_setAdd

theorem connectTo_update_mem_right (a b : String) (n : BitcoinNode) (hb : n.nodeId = b) :
    a ∈ ((if n.nodeId = a then { n with connections := setAdd n.connections b }
        else if n.nodeId = b then { n with connections := setAdd n.connections a }
        else n) : BitcoinNode).connections := by
  by_cases ha : n.nodeId = a
  · rw [if_pos ha]
    have : a = b := ha.symm.trans hb
    exact this ▸ self_mem_setAdd
  · rw [if_neg ha, if_pos hb]
    exact self_mem_setAdd

theorem symmetricNet_connectTo {net : List BitcoinNode} (a b : String)
    (h : SymmetricNet net) : SymmetricNet (connectTo net a b) := by
  unfold connectTo
  split
  · exact h
  · split
    · exact h
    · intro x hx y hy hmem
      obtain ⟨x0, hx0, rfl⟩ := List.mem_map.mp hx
      obtain ⟨y0, hy0, rfl⟩ := List.mem_map.mp hy
      rw [connectTo_update_nodeId] at hmem ⊢
      rcases connectTo_update_mem a b x0 hmem with hold | ⟨hxa, hyb⟩ | ⟨hxb, hya⟩
      · exact connectTo_update_subset a b y0 (h x0 hx0 y0 hy0 hold)
      · rw [hxa]
        exact connectTo_update_mem_right a b y0 hyb
      · rw [hxb]
        exact connectTo_update_mem_left a b y0 hya

theorem nodupIds_map_of_nodeId_eq {net : List BitcoinNode} (f : BitcoinNode → BitcoinNode)
    (hf : ∀ n, (f n).nodeId = n.nodeId) (h : NodupIds net) : NodupIds (net.map f) := by
  unfold NodupIds
  rw [List.map_map,
    @List.map_congr_left BitcoinNode net String (BitcoinNode.nodeId ∘ f)
      BitcoinNode.nodeId (fun n _ => hf n)]
  exact h

theorem nodupIds_connectTo {net : List BitcoinNode} (a b : String)
    (h : NodupIds net) : NodupIds (connectTo net a b) := by
  unfold connectTo
  split
  · exact h
  · split
    · exact h
    · exact nodupIds_map_of_nodeId_eq _ (fun n => connectTo_update_nodeId a b n) h

theorem map_eraseIdx {α β : Type} (f : α → β) :
    ∀ (l : List α) (i : ℕ), (l.eraseIdx i).map f = (l.map f).eraseIdx i
  | [], _ => rfl
  | _ :: _, 0 => rfl
  | x :: l, i + 1 => by
    simp only [List.eraseIdx, List.map_cons]
    exact congrArg _ (map_eraseIdx f l i)

theorem nodup_map_getElem_ne_eraseIdx {α β : Type} (f : α → β) :
    ∀ (l : List α) (i : ℕ) (v : α), (l.map f).Nodup → l[i]? = some v →
      ∀ x ∈ l.eraseIdx i, f x ≠ f v
  | [], i, v, _, hv => by simp at hv
  | hd :: tl, 0, v, hn, hv => by
    obtain rfl : hd = v := by simpa using hv
    intro x hx
    simp only [List.eraseIdx] at hx
    have hmem : f x ∈ tl.map f := List.mem_map.mpr ⟨x, hx, rfl⟩
    intro hfx
    exact (List.nodup_cons.mp hn).1 (hfx ▸ hmem)
  | hd :: tl, i + 1, v, hn, hv => by
    have hv' : tl[i]? = some v := by simpa using hv
    intro x hx
    rcases (by simpa [List.eraseIdx] using hx :
        x = hd ∨ x ∈ tl.eraseIdx i) with rfl | hx'
    · have hvtl : v ∈ tl := by
        obtain ⟨hlt, rfl⟩ := List.getElem?_eq_some_iff.mp hv'
        exact List.getElem_mem hlt
      intro hfx
      exact (List.nodup_cons.mp hn).1 (hfx ▸ List.mem_map.mpr ⟨v, hvtl, rfl⟩)
    · exact nodup_map_getElem_ne_eraseIdx f tl i v (List.nodup_cons.mp hn).2 hv' x hx'

theorem symmetricNet_removeNodeAt {net : List BitcoinNode} (i : ℤ)
    (h : SymmetricNet net) (hn : NodupIds net) : SymmetricNet (removeNodeAt net i) := by
  unfold removeNodeAt
  cases hf : jsIndex net i with
  | none => exact h
  | some v =>
    intro x hx y hy hmem
    obtain ⟨x0, hx0, rfl⟩ := List.mem_map.mp hx
    obtain ⟨y0, hy0, rfl⟩ := List.mem_map.mp hy
    have hx0net : x0 ∈ net := (List.eraseIdx_sublist net i.toNat).subset hx0
    have hy0net : y0 ∈ net := (List.eraseIdx_sublist net i.toNat).subset hy0
    simp only at hmem ⊢
    obtain ⟨hold, -⟩ := mem_setRemove.mp hmem
    refine mem_setRemove.mpr ⟨h x0 hx0net y0 hy0net hold, ?_⟩
    exact nodup_map_getElem_ne_eraseIdx BitcoinNode.nodeId net i.toNat v hn
      (jsIndex_eq_some hf) x0 hx0

theorem nodupIds_removeNodeAt {net : List BitcoinNode} (i : ℤ)
    (hn : NodupIds net) : NodupIds (removeNodeAt net i) := by
  unfold removeNodeAt
  cases jsIndex net i with
  | none => exact hn
  | some v =>
    unfold NodupIds
    rw [List.map_map]
    have : (net.eraseIdx i.toNat).map
        (BitcoinNode.nodeId ∘ fun n =>
          { n with connections := setRemove n.connections v.nodeId }) =
        (net.eraseIdx i.toNat).map BitcoinNode.nodeId :=
      List.map_congr_left (fun n _ => rfl)
    rw [this, map_eraseIdx]
    exact ((net.map BitcoinNode.nodeId).eraseIdx_sublist i.toNat).nodup hn

theorem symmetricNet_applyNetOp {net : List BitcoinNode} (op : NetOp)
    (h : SymmetricNet net) (hn : NodupIds net) :
    SymmetricNet (applyNetOp net op) ∧ NodupIds (applyNetOp net op) := by
  cases op with
  | connectOp a b => exact ⟨symmetricNet_connectTo a b h, nodupIds_connectTo a b hn⟩
  | removeOp i => exact ⟨symmetricNet_removeNodeAt i h hn, nodupIds_removeNodeAt i hn⟩

theorem symmetricNet_applyNetOps {net : List BitcoinNode} (ops : List NetOp)
    (h : SymmetricNet net) (hn : NodupIds net) :
    SymmetricNet (applyNetOps net ops) ∧ NodupIds (applyNetOps net ops) := by
  induction ops generalizing net with
  | nil => exact ⟨h, hn⟩
  | cons op ops ih =>
    obtain ⟨h1, h2⟩ := symmetricNet_applyNetOp op h hn
    exact ih h1 h2

/-- C1. For every sequence of connect and removeNode operations starting
from any symmetric (well formed, duplicate-free-id) network state, the
connection graph remains symmetric: whenever node A's connection set
contains B's id, B's connection set contains A's id. `connectTo` adds
both directions atomically, and the shutdown path removes the departing
node's id from every remaining node's connection set. -/
theorem connection_graph_symmetry (net : List BitcoinNode) (ops : List NetOp)
    (h : SymmetricNet net) (hn : NodupIds net) :
    SymmetricNet (applyNetOps net ops) :=
  (symmetricNet_applyNetOps ops h hn).1

/-- Witness for C1 at a concrete symmetric two-node state and a concrete
operation sequence. -/
theorem connection_graph_symmetry_witness :
    SymmetricNet (applyNetOps
      [⟨"node-0", [], ⟨5, 0⟩⟩, ⟨"node-1", [], ⟨5, 1⟩⟩]
      [.connectOp "node-0" "node-1", .removeOp 0, .connectOp "node-1" "node-1"]) :=
  connection_graph_symmetry
    [⟨"node-0", [], ⟨5, 0⟩⟩, ⟨"node-1", [], ⟨5, 1⟩⟩]
    [.connectOp "node-0" "node-1", .removeOp 0, .connectOp "node-1" "node-1"]
    (by unfold SymmetricNet; decide)
    (by unfold NodupIds; decide)

theorem find?_nodeId_map {f : BitcoinNode → BitcoinNode}
    (hf : ∀ n, (f n).nodeId = n.nodeId) (a : String) :
    ∀ l : List BitcoinNode,
      (l.map f).find? (fun n => n.nodeId = a) =
        (l.find? (fun n => n.nodeId = a)).map f
  | [] => rfl
  | x :: l => by
    by_cases hx : x.nodeId = a
    · rw [List.map_cons, List.find?_cons_of_pos _ (by simp [hf, hx]),
        List.find?_cons_of_pos _ (by simp [hx])]
      rfl
    · rw [List.map_cons, List.find?_cons_of_neg _ (by simp [hf, hx]),
        List.find?_cons_of_neg _ (by simp [hx]), find?_nodeId_map hf a l]

/-- C6 counterexample: `connectTo` has no self-connection guard, so
connecting the (not yet self-connected) node `"a"` to itself does change
its connection set, refuting the claim that `connect(a, a)` is a no-op. -/
theorem connect_self_changes_set :
    connectTo [⟨"a", [], ⟨5, 0⟩⟩] "a" "a" ≠ [⟨"a", [], ⟨5, 0⟩⟩] := by
  decide

/-- C6 (amended). `connect(a, b)` is a no-op when `a` and `b` are
already connected, and calling it twice equals calling it once
(idempotence); when they are not already connected it adds each node's
id to the other's connection set — including `b = a`, for which the
node's own id enters its set, since the source has no self-guard. -/
theorem connect_idempotent_and_adds_both (net : List BitcoinNode) (a b : String) :
    connectTo (connectTo net a b) a b = connectTo net a b
    ∧ (∀ na, net.find? (fun n => n.nodeId = a) = some na → b ∈ na.connections →
        connectTo net a b = net)
    ∧ (∀ na, net.find? (fun n => n.nodeId = a) = some na → b ∉ na.connections →
        ∀ x ∈ connectTo net a b,
          (x.nodeId = a → b ∈ x.connections) ∧ (x.nodeId = b → a ∈ x.connections)) := by
  refine ⟨?_, ?_, ?_⟩
  · cases hf : net.find? (fun n => n.nodeId = a) with
    | none =>
      have h1 : connectTo net a b = net := by simp [connectTo, hf]
      rw [h1, h1]
    | some na =>
      by_cases hb : b ∈ na.connections
      · have h1 : connectTo net a b = net := by simp [connectTo, hf, hb]
        rw [h1, h1]
      · have h1 : connectTo net a b = net.map (fun n =>
            if n.nodeId = a then { n with connections := setAdd n.connections b }
            else if n.nodeId = b then { n with connections := setAdd n.connections a }
            else n) := by
          simp [connectTo, hf, hb]
        rw [h1]
        have h2 := find?_nodeId_map (fun n => connectTo_update_nodeId a b n) a net
        rw [hf] at h2
        have hna : na.nodeId = a := by simpa using List.find?_some hf
        have hbmem : b ∈ ((if na.nodeId = a then { na with connections := setAdd na.connections b }
            else if na.nodeId = b then { na with connections := setAdd na.connections a }
            else na) : BitcoinNode).connections := connectTo_update_mem_left a b na hna
        simp [connectTo, h2, hbmem]
  · intro na hf hb
    simp [connectTo, hf, hb]
  · intro na hf hb x hx
    have h1 : connectTo net a b = net.map (fun n =>
        if n.nodeId = a then { n with connections := setAdd n.connections b }
        else if n.nodeId = b then { n with connections := setAdd n.connections a }
        else n) := by
      simp [connectTo, hf, hb]
    rw [h1] at hx
    obtain ⟨x0, hx0, rfl⟩ := List.mem_map.mp hx
    rw [connectTo_update_nodeId]
    exact ⟨fun ha => connectTo_update_mem_left a b x0 ha,
      fun hbid => connectTo_update_mem_right a b x0 hbid⟩

/-- Witness for C6's amended theorem at a concrete already-connected
pair (no-op) and a concrete unconnected pair (both ids added). -/
theorem connect_idempotent_and_adds_both_witness :
    connectTo [⟨"a", ["b"], ⟨5, 0⟩⟩, ⟨"b", ["a"], ⟨5, 1⟩⟩] "a" "b" =
      [⟨"a", ["b"], ⟨5, 0⟩⟩, ⟨"b", ["a"], ⟨5, 1⟩⟩]
    ∧ connectTo (connectTo [⟨"a", [], ⟨5, 0⟩⟩, ⟨"b", [], ⟨5, 1⟩⟩] "a" "b") "a" "b" =
      connectTo [⟨"a", [], ⟨5, 0⟩⟩, ⟨"b", [], ⟨5, 1⟩⟩] "a" "b" :=
  ⟨(connect_idempotent_and_adds_both
      [⟨"a", ["b"], ⟨5, 0⟩⟩, ⟨"b", ["a"], ⟨5, 1⟩⟩] "a" "b").2.1
      ⟨"a", ["b"], ⟨5, 0⟩⟩ (by decide) (by decide),
    (connect_idempotent_and_adds_both
      [⟨"a", [], ⟨5, 0⟩⟩, ⟨"b", [], ⟨5, 1⟩⟩] "a" "b").1⟩

/-- C7. Splice-and-shutdown removal at a valid index deletes the node
and removes its id from every surviving node's connection set, so no
survivor lists the removed id, and `pickRandomConnectedPeer` on any
survivor (in particular any former neighbour) never returns it. -/
theorem removeNode_purges_id (net : List BitcoinNode) (i : ℤ) (v : BitcoinNode)
    (hv : jsIndex net i = some v) :
    (removeNodeAt net i).length = net.length - 1
    ∧ ∀ n ∈ removeNodeAt net i,
        v.nodeId ∉ n.connections
        ∧ ∀ u : ℚ, pickRandomConnectedPeer n u ≠ some v.nodeId := by
  have hsome : net[i.toNat]? = some v := jsIndex_eq_some hv
  have hlt : i.toNat < net.length := (List.getElem?_eq_some_iff.mp hsome).1
  have hrw : removeNodeAt net i = (net.eraseIdx i.toNat).map
      (fun n => { n with connections := setRemove n.connections v.nodeId }) := by
    simp [removeNodeAt, hv]
  constructor
  · rw [hrw, List.length_map, List.length_eraseIdx, if_pos hlt]
  · intro n hn
    rw [hrw] at hn
    obtain ⟨n0, -, rfl⟩ := List.mem_map.mp hn
    have hnotin : v.nodeId ∉ setRemove n0.connections v.nodeId := by
      intro hmem
      exact (mem_setRemove.mp hmem).2 rfl
    refine ⟨hnotin, fun u hpick => ?_⟩
    exact hnotin (mem_of_jsIndex hpick)

theorem ofDecDigits_natDigitsFuel :
    ∀ (fuel n : ℕ), n ≤ fuel → ofDecDigits (natDigitsFuel fuel n) = n
  | 0, n, h => by
    have : n = 0 := Nat.le_zero.mp h
    simp [natDigitsFuel, ofDecDigits, this]
  | fuel + 1, n, h => by
    by_cases hn : n = 0
    · simp [natDigitsFuel, ofDecDigits, hn]
    · have hlt : n / 10 < n := Nat.div_lt_self (Nat.pos_of_ne_zero hn) (by omega)
      have hrec : n / 10 ≤ fuel := by omega
      simp only [natDigitsFuel, if_neg hn, ofDecDigits]
      rw [ofDecDigits_natDigitsFuel fuel (n / 10) hrec]
      omega

theorem natDigitsFuel_lt_ten :
    ∀ (fuel n : ℕ), ∀ d ∈ natDigitsFuel fuel n, d < 10
  | 0, n => by simp [natDigitsFuel]
  | fuel + 1, n => by
    by_cases hn : n = 0
    · simp [natDigitsFuel, hn]
    · intro d hd
      simp only [natDigitsFuel, if_neg hn, List.mem_cons] at hd
      rcases hd with rfl | hd
      · exact Nat.mod_lt _ (by omega)
      · exact natDigitsFuel_lt_ten fuel (n / 10) d hd

theorem digitChar_inj_lt :
    ∀ a < 10, ∀ b < 10, Nat.digitChar a = Nat.digitChar b → a = b := by
  decide

theorem map_digitChar_inj :
    ∀ {l1 l2 : List ℕ}, (∀ d ∈ l1, d < 10) → (∀ d ∈ l2, d < 10) →
      l1.map Nat.digitChar = l2.map Nat.digitChar → l1 = l2
  | [], [], _, _, _ => rfl
  | [], _ :: _, _, _, h => by simp at h
  | _ :: _, [], _, _, h => by simp at h
  | a :: l1, b :: l2, h1, h2, h => by
    simp only [List.map_cons, List.cons.injEq] at h
    have ha := digitChar_inj_lt a (h1 a (List.mem_cons_self a l1))
      b (h2 b (List.mem_cons_self b l2)) h.1
    have hl := map_digitChar_inj (fun d hd => h1 d (List.mem_cons_of_mem a hd))
      (fun d hd => h2 d (List.mem_cons_of_mem b hd)) h.2
    rw [ha, hl]

theorem natChars_inj {m n : ℕ} (h : natChars m = natChars n) : m = n := by
  unfold natChars at h
  by_cases hm : m = 0 <;> by_cases hn : n = 0
  · rw [hm, hn]
  · rw [if_pos hm, if_neg hn] at h
    have hmap : (natDigitsFuel n n).map Nat.digitChar = ['0'] := by
      have := congrArg List.reverse h
      simpa using this.symm
    have : natDigitsFuel n n = [0] :=
      map_digitChar_inj (natDigitsFuel_lt_ten n n) (by simp) (by simpa using hmap)
    have h0 := ofDecDigits_natDigitsFuel n n le_rfl
    rw [this] at h0
    simp [ofDecDigits] at h0
    exact absurd h0.symm hn
  · rw [if_neg hm, if_pos hn] at h
    have hmap : (natDigitsFuel m m).map Nat.digitChar = ['0'] := by
      have := congrArg List.reverse h
      simpa using this
    have : natDigitsFuel m m = [0] :=
      map_digitChar_inj (natDigitsFuel_lt_ten m m) (by simp) (by simpa using hmap)
    have h0 := ofDecDigits_natDigitsFuel m m le_rfl
    rw [this] at h0
    simp [ofDecDigits] at h0
    exact absurd h0.symm hm
  · rw [if_neg hm, if_neg hn] at h
    have hmap := List.reverse_injective h
    have hdig := map_digitChar_inj (natDigitsFuel_lt_ten m m) (natDigitsFuel_lt_ten n n) hmap
    have h1 := ofDecDigits_natDigitsFuel m m le_rfl
    have h2 := ofDecDigits_natDigitsFuel n n le_rfl
    rw [hdig, h2] at h1
    exact h1.symm

theorem nodeIdOf_inj : Function.Injective nodeIdOf := by
  intro s t h
  unfold nodeIdOf at h
  injection h with hdata
  exact natChars_inj (List.append_cancel_left hdata)

/-- C9 counterexample: two `addNode` creations whose `Date.now()`
readings coincide (both 7) yield two nodes with the same id
`node-7`, refuting unconditional freshness of created ids. -/
theorem addNode_id_clash :
    ¬ ((addNode (addNode [] ⟨5, 0⟩ 7) ⟨5, 0⟩ 7).map BitcoinNode.nodeId).Nodup := by
  decide

/-- C9 (amended). `addNode` always succeeds: it appends exactly one node
with an empty connection set and id `node-<t>` built from the clock
reading `t`; and every id ever created — the seeds `node-0` and
`node-1` plus one id per dynamic creation — is distinct from every
other, provided the dynamic creation timestamps are pairwise distinct
and avoid the seed values 0 and 1. -/
theorem addNode_succeeds_and_ids_fresh (net : List BitcoinNode) (p : RingPos) (now : ℕ)
    (ts : List ℕ) (hnd : ts.Nodup) (hseed : ∀ t ∈ ts, t ≠ 0 ∧ t ≠ 1) :
    (addNode net p now).length = net.length + 1
    ∧ (addNode net p now).getLast? = some ⟨nodeIdOf now, [], p⟩
    ∧ ("node-0" :: "node-1" :: ts.map nodeIdOf).Nodup := by
  refine ⟨by simp [addNode], by simp [addNode], ?_⟩
  have h0 : ("node-0" : String) = nodeIdOf 0 := by decide
  have h1 : ("node-1" : String) = nodeIdOf 1 := by decide
  rw [h0, h1]
  have hrw : (nodeIdOf 0 :: nodeIdOf 1 :: ts.map nodeIdOf) = (0 :: 1 :: ts).map nodeIdOf := rfl
  rw [hrw]
  refine List.Nodup.map nodeIdOf_inj ?_
  refine List.nodup_cons.mpr ⟨?_, List.nodup_cons.mpr ⟨?_, hnd⟩⟩
  · simp only [List.mem_cons]
    rintro (h | h)
    · exact absurd h (by omega)
    · exact (hseed 0 h).1 rfl
  · intro h
    exact (hseed 1 h).2 rfl

/-- Witness for C9's amended theorem with the concrete timestamp list
`[5, 23]`. -/
theorem addNode_succeeds_and_ids_fresh_witness :
    (addNode [] ⟨5, 0⟩ 5).length = 1
    ∧ ("node-0" :: "node-1" :: [5, 23].map nodeIdOf).Nodup :=
  ⟨(addNode_succeeds_and_ids_fresh [] ⟨5, 0⟩ 5 [5, 23] (by decide) (by decide)).1,
    (addNode_succeeds_and_ids_fresh [] ⟨5, 0⟩ 5 [5, 23] (by decide) (by decide)).2.2⟩

theorem placeGo_attempts_le (tc : ℚ → Bool) (us : ℕ → ℚ) :
    ∀ (fuel i : ℕ), (placeGo tc us fuel i).1 ≤ i + fuel + 1
  | fuel, i => by
    unfold placeGo
    by_cases h : tc (us i) = false
    · rw [if_pos h]
      omega
    · rw [if_neg h]
      cases fuel with
      | zero => simp
      | succ fuel' =>
        have := placeGo_attempts_le tc us fuel' (i + 1)
        simpa using this.trans (by omega)

/-- C8. The placement search always terminates: for every outcome of the
distance oracle (in particular one rejecting every candidate), the
rejection loop performs at most 10 attempts, on exhaustion the fallback
position sits on a ring of radius `radius * (1 + u·0.4)` — between 1.0
and 1.4 times the base radius for `u ∈ [0, 1)` — with no further
distance check, and a position is always produced. -/
theorem placement_always_terminates (tc : ℚ → Bool) (us : ℕ → ℚ) (fu : ℚ)
    (h0 : 0 ≤ fu) (h1 : fu < 1) :
    (findPlacement tc us fu).1 ≤ 10
    ∧ (10 ≤ (findPlacement tc us fu).1 →
        (findPlacement tc us fu).2.r = sceneRadius * (1 + fu * (2 / 5)))
    ∧ sceneRadius ≤ (findPlacement tc us fu).2.r
    ∧ (findPlacement tc us fu).2.r < sceneRadius * (7 / 5) := by
  have hle : (placeGo tc us 9 0).1 ≤ 10 := by
    simpa using placeGo_attempts_le tc us 9 0
  have hrad : sceneRadius ≤ sceneRadius * (1 + fu * (2 / 5))
      ∧ sceneRadius * (1 + fu * (2 / 5)) < sceneRadius * (7 / 5) := by
    unfold sceneRadius
    constructor <;> nlinarith
  unfold findPlacement
  split
  · exact ⟨hle, fun _ => rfl, hrad.1, hrad.2⟩
  · refine ⟨hle, ?_, le_rfl, ?_⟩
    · next hn => exact fun hge => absurd hge hn
    · unfold sceneRadius
      norm_num

/-- Witness for C8 with an oracle rejecting every candidate: the loop
exhausts its 10 attempts and the fallback position is produced. -/
theorem placement_always_terminates_witness :
    (0 : ℚ) ≤ 0 ∧ (0 : ℚ) < 1
    ∧ (findPlacement (fun _ => true) (fun _ => 0) 0).1 ≤ 10
    ∧ sceneRadius ≤ (findPlacement (fun _ => true) (fun _ => 0) 0).2.r :=
  ⟨le_rfl, by norm_num,
    (placement_always_terminates (fun _ => true) (fun _ => 0) 0 le_rfl (by norm_num)).1,
    (placement_always_terminates (fun _ => true) (fun _ => 0) 0 le_rfl (by norm_num)).2.2.1⟩

/-- Witness for C7: removing the node at index 1 of a concrete two-node
network leaves one node, and picking a random connected peer of the
survivor cannot return the removed id. -/
theorem removeNode_purges_id_witness :
    (removeNodeAt [⟨"node-0", ["node-1"], ⟨5, 0⟩⟩, ⟨"node-1", ["node-0"], ⟨5, 1⟩⟩] 1).length = 1
    ∧ pickRandomConnectedPeer ⟨"node-0", [], ⟨5, 0⟩⟩ (1 / 2) ≠ some "node-1" :=
  ⟨(removeNode_purges_id
      [⟨"node-0", ["node-1"], ⟨5, 0⟩⟩, ⟨"node-1", ["node-0"], ⟨5, 1⟩⟩] 1
      ⟨"node-1", ["node-0"], ⟨5, 1⟩⟩ (by decide)).1,
    ((removeNode_purges_id
      [⟨"node-0", ["node-1"], ⟨5, 0⟩⟩, ⟨"node-1", ["node-0"], ⟨5, 1⟩⟩] 1
      ⟨"node-1", ["node-0"], ⟨5, 1⟩⟩ (by decide)).2
      ⟨"node-0", [], ⟨5, 0⟩⟩ (by decide)).2 (1 / 2)⟩

theorem ratFloor_eq (q : ℚ) : q.floor = ⌊q⌋ := by
  rw [Rat.floor_def', Rat.floor_def]

theorem jsMod_zero_left (b : ℚ) : jsMod 0 b = 0 := by
  simp [jsMod, ratFloor_eq]

theorem discoveryCadence_of_zero {st : SimulationState} (hs : st.currentStep = 0) :
    discoveryCadence st = true := by
  simp [discoveryCadence, hs, jsMod_zero_left]

theorem processingCadence_of_zero {st : SimulationState} (hs : st.currentStep = 0) :
    processingCadence st = true := by
  simp [processingCadence, hs, jsMod_zero_left]

theorem phaseExitCheck_fst (w : World) (th : ℚ) (nx : Phase) :
    (phaseExitCheck w th nx).1.nodes = w.nodes
    ∧ (phaseExitCheck w th nx).1.state.speed = w.state.speed
    ∧ (phaseExitCheck w th nx).1.state.isRunning = w.state.isRunning
    ∧ (phaseExitCheck w th nx).1.state.currentStep = w.state.currentStep
    ∧ (phaseExitCheck w th nx).1.state.initialNodeCount = w.state.initialNodeCount
    ∧ (phaseExitCheck w th nx).1.state.nodeCount = w.state.nodeCount := by
  unfold phaseExitCheck
  split <;> exact ⟨rfl, rfl, rfl, rfl, rfl, rfl⟩

theorem ncExitCheck_preserves (w : World) :
    (ncExitCheck w).1.state.speed = w.state.speed
    ∧ (ncExitCheck w).1.state.isRunning = w.state.isRunning
    ∧ (ncExitCheck w).1.state.currentStep = w.state.currentStep
    ∧ (ncExitCheck w).1.state.initialNodeCount = w.state.initialNodeCount := by
  unfold ncExitCheck
  split
  · dsimp only
    split <;> exact ⟨rfl, rfl, rfl, rfl⟩
  · exact ⟨rfl, rfl, rfl, rfl⟩

theorem ncBody_preserves (w : World) (e : TickEnv) :
    (ncBody w e).state.currentPhase = w.state.currentPhase
    ∧ (ncBody w e).state.phaseTimer = w.state.phaseTimer
    ∧ (ncBody w e).state.speed = w.state.speed
    ∧ (ncBody w e).state.isRunning = w.state.isRunning
    ∧ (ncBody w e).state.currentStep = w.state.currentStep
    ∧ (ncBody w e).state.initialNodeCount = w.state.initialNodeCount := by
  unfold ncBody
  split
  · split
    · exact ⟨rfl, rfl, rfl, rfl, rfl, rfl⟩
    · split
      · exact ⟨rfl, rfl, rfl, rfl, rfl, rfl⟩
      · exact ⟨rfl, rfl, rfl, rfl, rfl, rfl⟩
  · exact ⟨rfl, rfl, rfl, rfl, rfl, rfl⟩

theorem tick_preserves (w : World) (e : TickEnv) :
    (tick w e).1.state.speed = w.state.speed
    ∧ (tick w e).1.state.isRunning = w.state.isRunning
    ∧ (tick w e).1.state.currentStep = w.state.currentStep
    ∧ (tick w e).1.state.initialNodeCount = w.state.initialNodeCount := by
  unfold tick
  split
  · exact ⟨rfl, rfl, rfl, rfl⟩
  · split
    · obtain ⟨-, a2, a3, a4, a5, -⟩ := phaseExitCheck_fst (tickAccum w e) 5000 .syncing
      obtain ⟨-, b2, b3, b4, b5, -⟩ :=
        phaseExitCheck_fst (phaseExitCheck (tickAccum w e) 5000 .syncing).1 5000 .syncing
      exact ⟨b2.trans a2, b3.trans a3, b4.trans a4, b5.trans a5⟩
    · obtain ⟨-, a2, a3, a4, a5, -⟩ := phaseExitCheck_fst (tickAccum w e) 8000 .processing
      obtain ⟨-, b2, b3, b4, b5, -⟩ :=
        phaseExitCheck_fst (phaseExitCheck (tickAccum w e) 8000 .processing).1 8000 .processing
      exact ⟨b2.trans a2, b3.trans a3, b4.trans a4, b5.trans a5⟩
    · obtain ⟨-, a2, a3, a4, a5, -⟩ := phaseExitCheck_fst (tickAccum w e) 6000 .networkChanges
      obtain ⟨-, b2, b3, b4, b5, -⟩ :=
        phaseExitCheck_fst (phaseExitCheck (tickAccum w e) 6000 .networkChanges).1 6000 .networkChanges
      exact ⟨b2.trans a2, b3.trans a3, b4.trans a4, b5.trans a5⟩
    · obtain ⟨-, -, nsp, nr, nst, ni⟩ := ncBody_preserves (tickAccum w e) e
      obtain ⟨a2, a3, a4, a5⟩ := ncExitCheck_preserves (ncBody (tickAccum w e) e)
      obtain ⟨b2, b3, b4, b5⟩ := ncExitCheck_preserves (ncExitCheck (ncBody (tickAccum w e) e)).1
      exact ⟨b2.trans (a2.trans nsp), b3.trans (a3.trans nr),
        b4.trans (a4.trans nst), b5.trans (a5.trans ni)⟩

/-- C10. `simulationState.currentStep` starts at 0 and no tick ever
modifies it; consequently (for any positive speed) the cadence guards
`currentStep % (3 / speed) < 1` of the discovery behavior and
`currentStep % (5 / speed) < 1` of the processing behavior evaluate to
true, so those behaviors attempt their action on every running tick of
their phase rather than on a step-counter cadence. -/
theorem currentStep_frozen_cadences_trivial (w : World) (e : TickEnv)
    (st : SimulationState) (hs : st.currentStep = 0) (_hsp : 0 < st.speed) :
    initialWorld.state.currentStep = 0
    ∧ (tick w e).1.state.currentStep = w.state.currentStep
    ∧ discoveryCadence st = true
    ∧ processingCadence st = true :=
  ⟨rfl, (tick_preserves w e).2.2.1, discoveryCadence_of_zero hs,
    processingCadence_of_zero hs⟩

/-- Witness for C10 at the startup state and a concrete environment. -/
theorem currentStep_frozen_cadences_trivial_witness :
    initialWorld.state.currentStep = 0
    ∧ (tick initialWorld trivialEnv).1.state.currentStep = initialWorld.state.currentStep
    ∧ discoveryCadence initialWorld.state = true :=
  ⟨(currentStep_frozen_cadences_trivial initialWorld trivialEnv initialWorld.state
      rfl (by norm_num [initialWorld])).1,
    (currentStep_frozen_cadences_trivial initialWorld trivialEnv initialWorld.state
      rfl (by norm_num [initialWorld])).2.1,
    (currentStep_frozen_cadences_trivial initialWorld trivialEnv initialWorld.state
      rfl (by norm_num [initialWorld])).2.2.1⟩

/-- C4. When `running` is false the tick handler mutates nothing and
executes no phase behavior: any sequence of ticks (with arbitrary
deltas) leaves the whole world — `phaseTimer`, `phase` and the node
count included — unchanged, and each tick emits no effect. -/
theorem paused_tick_mutates_nothing (w : World) (es : List TickEnv)
    (h : w.state.isRunning = false) :
    ticks w es = w ∧ ∀ e : TickEnv, tick w e = (w, []) := by
  have hstep : ∀ e : TickEnv, tick w e = (w, []) := by
    intro e
    simp [tick, h]
  refine ⟨?_, hstep⟩
  induction es with
  | nil => rfl
  | cons e es ih =>
    have : ticks w (e :: es) = ticks (tick w e).1 es := rfl
    rw [this, hstep e]
    exact ih

/-- Witness for C4: ten concrete ticks on the paused startup state
leave it unchanged. -/
theorem paused_tick_mutates_nothing_witness :
    pausedWorld.state.isRunning = false
    ∧ (List.replicate 10 trivialEnv).length = 10
    ∧ ticks pausedWorld (List.replicate 10 trivialEnv) = pausedWorld :=
  ⟨rfl, rfl,
    (paused_tick_mutates_nothing pausedWorld (List.replicate 10 trivialEnv) rfl).1⟩

theorem discBody_no_notice (w : World) (e : TickEnv) :
    ∀ x ∈ discBody w e, isPhaseNotice x = false := by
  intro x hx
  unfold discBody at hx
  split at hx
  · split at hx
    · split at hx
      · simp only [List.mem_singleton] at hx
        subst hx
        rfl
      · simp at hx
    · simp at hx
  · simp at hx

theorem syncBody_no_notice (w : World) (e : TickEnv) :
    ∀ x ∈ syncBody w e, isPhaseNotice x = false := by
  intro x hx
  unfold syncBody at hx
  obtain ⟨i, -, hx⟩ := List.mem_flatMap.mp hx
  split at hx
  · simp at hx
  · rw [List.mem_cons] at hx
    rcases hx with rfl | hx
    · rfl
    · split at hx
      · split at hx
        · simp at hx
        · split at hx
          · simp at hx
          · split at hx
            · simp only [List.mem_singleton] at hx
              subst hx
              rfl
            · simp at hx
      · simp at hx

theorem procBody_no_notice (w : World) (e : TickEnv) :
    ∀ x ∈ procBody w e, isPhaseNotice x = false := by
  intro x hx
  unfold procBody at hx
  split at hx
  · split at hx
    · simp at hx
    · split at hx
      · split at hx
        · simp at hx
        · split at hx
          · simp at hx
          · split at hx
            · simp only [List.mem_cons, List.mem_singleton] at hx
              rcases hx with rfl | rfl | h
              · rfl
              · rfl
              · simp at h
            · simp at hx
      · simp at hx
  · simp at hx

theorem phaseExitCheck_of_gt (w : World) (th : ℚ) (nx : Phase)
    (h : w.state.phaseTimer > th) :
    phaseExitCheck w th nx =
      ({ w with state := { w.state with currentPhase := nx, phaseTimer := 0 } },
        [.phaseChanged nx]) := by
  unfold phaseExitCheck
  rw [if_pos h]

theorem phaseExitCheck_of_le (w : World) (th : ℚ) (nx : Phase)
    (h : ¬ w.state.phaseTimer > th) :
    phaseExitCheck w th nx = (w, []) := by
  unfold phaseExitCheck
  rw [if_neg h]

theorem ncExitCheck_of_le (w : World) (h : ¬ w.state.phaseTimer > 7000) :
    ncExitCheck w = (w, []) := by
  unfold ncExitCheck
  rw [if_neg h]

theorem ncExitCheck_of_gt (w : World) (h : w.state.phaseTimer > 7000) :
    (ncExitCheck w).1.state.currentPhase = .discovery
    ∧ (ncExitCheck w).1.state.phaseTimer = 0
    ∧ (ncExitCheck w).2 = [.phaseChanged .discovery] := by
  unfold ncExitCheck
  rw [if_pos h]
  exact ⟨rfl, rfl, rfl⟩

theorem tick_eq_discovery (w : World) (e : TickEnv) (hr : w.state.isRunning = true)
    (hp : w.state.currentPhase = .discovery) :
    tick w e =
      ((phaseExitCheck (phaseExitCheck (tickAccum w e) 5000 .syncing).1 5000 .syncing).1,
        discBody (tickAccum w e) e
          ++ (phaseExitCheck (tickAccum w e) 5000 .syncing).2
          ++ (phaseExitCheck (phaseExitCheck (tickAccum w e) 5000 .syncing).1 5000 .syncing).2) := by
  unfold tick
  rw [if_neg (by simp [hr])]
  split
  · rfl
  all_goals
    (rename_i hq
     rw [show (tickAccum w e).state.currentPhase = w.state.currentPhase from rfl, hp] at hq
     cases hq)

theorem tick_eq_syncing (w : World) (e : TickEnv) (hr : w.state.isRunning = true)
    (hp : w.state.currentPhase = .syncing) :
    tick w e =
      ((phaseExitCheck (phaseExitCheck (tickAccum w e) 8000 .processing).1 8000 .processing).1,
        syncBody (tickAccum w e) e
          ++ (phaseExitCheck (tickAccum w e) 8000 .processing).2
          ++ (phaseExitCheck (phaseExitCheck (tickAccum w e) 8000 .processing).1 8000 .processing).2) := by
  unfold tick
  rw [if_neg (by simp [hr])]
  split
  case _ hq =>
    rw [show (tickAccum w e).state.currentPhase = w.state.currentPhase from rfl, hp] at hq
    cases hq
  · rfl
  all_goals
    (rename_i hq
     rw [show (tickAccum w e).state.currentPhase = w.state.currentPhase from rfl, hp] at hq
     cases hq)

theorem tick_eq_processing (w : World) (e : TickEnv) (hr : w.state.isRunning = true)
    (hp : w.state.currentPhase = .processing) :
    tick w e =
      ((phaseExitCheck (phaseExitCheck (tickAccum w e) 6000 .networkChanges).1
          6000 .networkChanges).1,
        procBody (tickAccum w e) e
          ++ (phaseExitCheck (tickAccum w e) 6000 .networkChanges).2
          ++ (phaseExitCheck (phaseExitCheck (tickAccum w e) 6000 .networkChanges).1
              6000 .networkChanges).2) := by
  unfold tick
  rw [if_neg (by simp [hr])]
  split
  case _ hq =>
    rw [show (tickAccum w e).state.currentPhase = w.state.currentPhase from rfl, hp] at hq
    cases hq
  case _ hq =>
    rw [show (tickAccum w e).state.currentPhase = w.state.currentPhase from rfl, hp] at hq
    cases hq
  · rfl
  all_goals
    (rename_i hq
     rw [show (tickAccum w e).state.currentPhase = w.state.currentPhase from rfl, hp] at hq
     cases hq)

theorem tick_eq_networkChanges (w : World) (e : TickEnv) (hr : w.state.isRunning = true)
    (hp : w.state.currentPhase = .networkChanges) :
    tick w e =
      ((ncExitCheck (ncExitCheck (ncBody (tickAccum w e) e)).1).1,
        (ncExitCheck (ncBody (tickAccum w e) e)).2
          ++ (ncExitCheck (ncExitCheck (ncBody (tickAccum w e) e)).1).2) := by
  unfold tick
  rw [if_neg (by simp [hr])]
  split
  case _ hq =>
    rw [show (tickAccum w e).state.currentPhase = w.state.currentPhase from rfl, hp] at hq
    cases hq
  case _ hq =>
    rw [show (tickAccum w e).state.currentPhase = w.state.currentPhase from rfl, hp] at hq
    cases hq
  case _ hq =>
    rw [show (tickAccum w e).state.currentPhase = w.state.currentPhase from rfl, hp] at hq
    cases hq
  · rfl

theorem countP_notice_concat (l1 l2 l3 : List Effect)
    (h1 : ∀ x ∈ l1, isPhaseNotice x = false) :
    (l1 ++ l2 ++ l3).countP isPhaseNotice =
      l2.countP isPhaseNotice + l3.countP isPhaseNotice := by
  rw [List.countP_append, List.countP_append,
    List.countP_eq_zero.mpr (fun x hx => by simp [h1 x hx])]
  omega

/-- C3. The phase only ever moves along the fixed cycle
Discovery → Syncing → Processing → NetworkChanges → Discovery; a
transition out of a phase happens on a running tick exactly when the
accumulated `phaseTimer` exceeds that phase's threshold (Discovery
5000 ms, Syncing 8000 ms, Processing 6000 ms, NetworkChanges 7000 ms),
and every transition resets `phaseTimer` to 0 and invokes the
`updateInstructions` notification exactly once. -/
theorem phase_cycle_transitions (w : World) (e : TickEnv) :
    ((tick w e).1.state.currentPhase = w.state.currentPhase
      ∨ (tick w e).1.state.currentPhase = nextPhase w.state.currentPhase)
    ∧ (w.state.isRunning = false → tick w e = (w, []))
    ∧ (w.state.isRunning = true →
        (w.state.phaseTimer + e.delta * w.state.speed > phaseThreshold w.state.currentPhase →
          (tick w e).1.state.currentPhase = nextPhase w.state.currentPhase
          ∧ (tick w e).1.state.phaseTimer = 0
          ∧ (tick w e).2.countP isPhaseNotice = 1)
        ∧ (¬ w.state.phaseTimer + e.delta * w.state.speed > phaseThreshold w.state.currentPhase →
          (tick w e).1.state.currentPhase = w.state.currentPhase
          ∧ (tick w e).1.state.phaseTimer = w.state.phaseTimer + e.delta * w.state.speed
          ∧ (tick w e).2.countP isPhaseNotice = 0)) := by
  by_cases hr : w.state.isRunning = true
  · have hpause : w.state.isRunning = false → tick w e = (w, []) :=
      fun hf => absurd (hf.symm.trans hr) (by decide)
    cases hp : w.state.currentPhase with
    | discovery =>
      simp only [phaseThreshold, nextPhase]
      by_cases hc : w.state.phaseTimer + e.delta * w.state.speed > 5000
      · have key : (tick w e).1.state.currentPhase = Phase.syncing
            ∧ (tick w e).1.state.phaseTimer = 0
            ∧ (tick w e).2.countP isPhaseNotice = 1 := by
          have hc1 : (tickAccum w e).state.phaseTimer > 5000 := hc
          rw [tick_eq_discovery w e hr hp,
            phaseExitCheck_of_gt (tickAccum w e) 5000 Phase.syncing hc1]
          rw [phaseExitCheck_of_le]
          · refine ⟨rfl, rfl, ?_⟩
            rw [countP_notice_concat _ _ _ (discBody_no_notice (tickAccum w e) e)]
            simp [List.countP_cons, isPhaseNotice]
          · show ¬ ((0 : ℚ) > 5000)
            norm_num
        exact ⟨Or.inr key.1, hpause, fun _ => ⟨fun _ => key, fun hn => absurd hc hn⟩⟩
      · have key : (tick w e).1.state.currentPhase = Phase.discovery
            ∧ (tick w e).1.state.phaseTimer = w.state.phaseTimer + e.delta * w.state.speed
            ∧ (tick w e).2.countP isPhaseNotice = 0 := by
          have hc1 : ¬ (tickAccum w e).state.phaseTimer > 5000 := hc
          rw [tick_eq_discovery w e hr hp,
            phaseExitCheck_of_le (tickAccum w e) 5000 Phase.syncing hc1]
          rw [phaseExitCheck_of_le]
          · refine ⟨hp, rfl, ?_⟩
            rw [countP_notice_concat _ _ _ (discBody_no_notice (tickAccum w e) e)]
            simp
          · exact hc1
        exact ⟨Or.inl key.1, hpause, fun _ => ⟨fun hcc => absurd hcc hc, fun _ => key⟩⟩
    | syncing =>
      simp only [phaseThreshold, nextPhase]
      by_cases hc : w.state.phaseTimer + e.delta * w.state.speed > 8000
      · have key : (tick w e).1.state.currentPhase = Phase.processing
            ∧ (tick w e).1.state.phaseTimer = 0
            ∧ (tick w e).2.countP isPhaseNotice = 1 := by
          have hc1 : (tickAccum w e).state.phaseTimer > 8000 := hc
          rw [tick_eq_syncing w e hr hp,
            phaseExitCheck_of_gt (tickAccum w e) 8000 Phase.processing hc1]
          rw [phaseExitCheck_of_le]
          · refine ⟨rfl, rfl, ?_⟩
            rw [countP_notice_concat _ _ _ (syncBody_no_notice (tickAccum w e) e)]
            simp [List.countP_cons, isPhaseNotice]
          · show ¬ ((0 : ℚ) > 8000)
            norm_num
        exact ⟨Or.inr key.1, hpause, fun _ => ⟨fun _ => key, fun hn => absurd hc hn⟩⟩
      · have key : (tick w e).1.state.currentPhase = Phase.syncing
            ∧ (tick w e).1.state.phaseTimer = w.state.phaseTimer + e.delta * w.state.speed
            ∧ (tick w e).2.countP isPhaseNotice = 0 := by
          have hc1 : ¬ (tickAccum w e).state.phaseTimer > 8000 := hc
          rw [tick_eq_syncing w e hr hp,
            phaseExitCheck_of_le (tickAccum w e) 8000 Phase.processing hc1]
          rw [phaseExitCheck_of_le]
          · refine ⟨hp, rfl, ?_⟩
            rw [countP_notice_concat _ _ _ (syncBody_no_notice (tickAccum w e) e)]
            simp
          · exact hc1
        exact ⟨Or.inl key.1, hpause, fun _ => ⟨fun hcc => absurd hcc hc, fun _ => key⟩⟩
    | processing =>
      simp only [phaseThreshold, nextPhase]
      by_cases hc : w.state.phaseTimer + e.delta * w.state.speed > 6000
      · have key : (tick w e).1.state.currentPhase = Phase.networkChanges
            ∧ (tick w e).1.state.phaseTimer = 0
            ∧ (tick w e).2.countP isPhaseNotice = 1 := by
          have hc1 : (tickAccum w e).state.phaseTimer > 6000 := hc
          rw [tick_eq_processing w e hr hp,
            phaseExitCheck_of_gt (tickAccum w e) 6000 Phase.networkChanges hc1]
          rw [phaseExitCheck_of_le]
          · refine ⟨rfl, rfl, ?_⟩
            rw [countP_notice_concat _ _ _ (procBody_no_notice (tickAccum w e) e)]
            simp [List.countP_cons, isPhaseNotice]
          · show ¬ ((0 : ℚ) > 6000)
            norm_num
        exact ⟨Or.inr key.1, hpause, fun _ => ⟨fun _ => key, fun hn => absurd hc hn⟩⟩
      · have key : (tick w e).1.state.currentPhase = Phase.processing
            ∧ (tick w e).1.state.phaseTimer = w.state.phaseTimer + e.delta * w.state.speed
            ∧ (tick w e).2.countP isPhaseNotice = 0 := by
          have hc1 : ¬ (tickAccum w e).state.phaseTimer > 6000 := hc
          rw [tick_eq_processing w e hr hp,
            phaseExitCheck_of_le (tickAccum w e) 6000 Phase.networkChanges hc1]
          rw [phaseExitCheck_of_le]
          · refine ⟨hp, rfl, ?_⟩
            rw [countP_notice_concat _ _ _ (procBody_no_notice (tickAccum w e) e)]
            simp
          · exact hc1
        exact ⟨Or.inl key.1, hpause, fun _ => ⟨fun hcc => absurd hcc hc, fun _ => key⟩⟩
    | networkChanges =>
      simp only [phaseThreshold, nextPhase]
      by_cases hc : w.state.phaseTimer + e.delta * w.state.speed > 7000
      · have key : (tick w e).1.state.currentPhase = Phase.discovery
            ∧ (tick w e).1.state.phaseTimer = 0
            ∧ (tick w e).2.countP isPhaseNotice = 1 := by
          have hgt : (ncBody (tickAccum w e) e).state.phaseTimer > 7000 := by
            rw [(ncBody_preserves (tickAccum w e) e).2.1]
            exact hc
          have k1 := ncExitCheck_of_gt (ncBody (tickAccum w e) e) hgt
          have hskip : ¬ (ncExitCheck (ncBody (tickAccum w e) e)).1.state.phaseTimer > 7000 := by
            rw [k1.2.1]
            norm_num
          have k2 := ncExitCheck_of_le _ hskip
          rw [tick_eq_networkChanges w e hr hp, k2]
          refine ⟨k1.1, k1.2.1, ?_⟩
          rw [List.countP_append, k1.2.2]
          simp [List.countP_cons, isPhaseNotice]
        exact ⟨Or.inr key.1, hpause, fun _ => ⟨fun _ => key, fun hn => absurd hc hn⟩⟩
      · have key : (tick w e).1.state.currentPhase = Phase.networkChanges
            ∧ (tick w e).1.state.phaseTimer = w.state.phaseTimer + e.delta * w.state.speed
            ∧ (tick w e).2.countP isPhaseNotice = 0 := by
          have hle : ¬ (ncBody (tickAccum w e) e).state.phaseTimer > 7000 := by
            rw [(ncBody_preserves (tickAccum w e) e).2.1]
            exact hc
          have k1 := ncExitCheck_of_le _ hle
          rw [tick_eq_networkChanges w e hr hp, k1]
          rw [ncExitCheck_of_le]
          · exact ⟨(ncBody_preserves (tickAccum w e) e).1.trans hp,
              (ncBody_preserves (tickAccum w e) e).2.1, by simp⟩
          · exact hle
        exact ⟨Or.inl key.1, hpause, fun _ => ⟨fun hcc => absurd hcc hc, fun _ => key⟩⟩
  · have hrf : w.state.isRunning = false := by
      revert hr
      cases w.state.isRunning <;> simp
    have ht : tick w e = (w, []) := by
      simp [tick, hrf]
    exact ⟨Or.inl (by rw [ht]), fun _ => ht, fun hcontra => absurd hcontra hr⟩

/-- Witness for C3 at the startup state and an environment with delta
200 ms: the running-tick clause applies concretely. -/
theorem phase_cycle_transitions_witness :
    initialWorld.state.isRunning = true
    ∧ ((tick initialWorld trivialEnv).1.state.currentPhase = initialWorld.state.currentPhase
      ∨ (tick initialWorld trivialEnv).1.state.currentPhase =
          nextPhase initialWorld.state.currentPhase) :=
  ⟨rfl, (phase_cycle_transitions initialWorld trivialEnv).1⟩

theorem removeNodeAt_length (net : List BitcoinNode) (i : ℤ) :
    (removeNodeAt net i).length = net.length
    ∨ ((removeNodeAt net i).length = net.length - 1 ∧ i.toNat < net.length) := by
  unfold removeNodeAt
  split
  · left
    rfl
  · right
    rename_i v hv
    have hlt := (List.getElem?_eq_some_iff.mp (jsIndex_eq_some hv)).1
    rw [List.length_map, List.length_eraseIdx, if_pos hlt]
    exact ⟨rfl, hlt⟩

theorem ncBody_length_cases (w : World) (e : TickEnv) :
    (ncBody w e).nodes.length = w.nodes.length
    ∨ (2 < w.nodes.length ∧ (ncBody w e).nodes.length = w.nodes.length - 1)
    ∨ ((w.nodes.length : ℚ) < maxNodesOf w.state
        ∧ (ncBody w e).nodes.length = w.nodes.length + 1) := by
  unfold ncBody
  split
  · split
    · rename_i hcoin
      rcases removeNodeAt_length w.nodes (randIndex e.ncRemoveU w.nodes.length) with h | ⟨h, -⟩
      · left
        exact h
      · right
        left
        exact ⟨hcoin.2, h⟩
    · split
      · rename_i hlt
        right
        right
        refine ⟨hlt, ?_⟩
        simp [addNode]
      · left
        rfl
  · left
    rfl

theorem ncExitCheck_length_cases (w : World) :
    (ncExitCheck w).1.nodes.length = w.nodes.length
    ∨ (w.nodes.length < 2 ∧ (ncExitCheck w).1.nodes.length = w.nodes.length + 1) := by
  unfold ncExitCheck
  split
  · dsimp only
    split
    · rename_i hlt
      right
      refine ⟨hlt, ?_⟩
      simp
    · left
      rfl
  · left
    rfl

theorem maxNodesOf_init_one {st : SimulationState} (h : st.initialNodeCount = 1) :
    maxNodesOf st = 20 := by
  rw [maxNodesOf, h]
  exact max_eq_left (by norm_num)

theorem tick_nodes_bounds (w : World) (e : TickEnv)
    (hinit : w.state.initialNodeCount = 1) :
    (2 ≤ w.nodes.length → 2 ≤ (tick w e).1.nodes.length)
    ∧ (w.nodes.length ≤ 20 → (tick w e).1.nodes.length ≤ 20) := by
  by_cases hr : w.state.isRunning = true
  · cases hp : w.state.currentPhase with
    | discovery =>
      have heq : (tick w e).1.nodes = w.nodes := by
        rw [tick_eq_discovery w e hr hp]
        exact ((phaseExitCheck_fst (phaseExitCheck (tickAccum w e) 5000 .syncing).1
          5000 .syncing).1).trans (phaseExitCheck_fst (tickAccum w e) 5000 .syncing).1
      rw [heq]
      exact ⟨id, id⟩
    | syncing =>
      have heq : (tick w e).1.nodes = w.nodes := by
        rw [tick_eq_syncing w e hr hp]
        exact ((phaseExitCheck_fst (phaseExitCheck (tickAccum w e) 8000 .processing).1
          8000 .processing).1).trans (phaseExitCheck_fst (tickAccum w e) 8000 .processing).1
      rw [heq]
      exact ⟨id, id⟩
    | processing =>
      have heq : (tick w e).1.nodes = w.nodes := by
        rw [tick_eq_processing w e hr hp]
        exact ((phaseExitCheck_fst (phaseExitCheck (tickAccum w e) 6000 .networkChanges).1
          6000 .networkChanges).1).trans
          (phaseExitCheck_fst (tickAccum w e) 6000 .networkChanges).1
      rw [heq]
      exact ⟨id, id⟩
    | networkChanges =>
      have hmax : maxNodesOf (tickAccum w e).state = 20 :=
        maxNodesOf_init_one (show (tickAccum w e).state.initialNodeCount = 1 from hinit)
      rw [tick_eq_networkChanges w e hr hp]
      have e1 : (tickAccum w e).nodes.length = w.nodes.length := rfl
      have hfin : ((ncExitCheck (ncExitCheck (ncBody (tickAccum w e) e)).1).1,
          (ncExitCheck (ncBody (tickAccum w e) e)).2
            ++ (ncExitCheck (ncExitCheck (ncBody (tickAccum w e) e)).1).2).1.nodes.length =
          (ncExitCheck (ncExitCheck (ncBody (tickAccum w e) e)).1).1.nodes.length := rfl
      rcases ncBody_length_cases (tickAccum w e) e with h1 | ⟨h1a, h1b⟩ | ⟨h1a, h1b⟩ <;>
        rcases ncExitCheck_length_cases (ncBody (tickAccum w e) e) with h2 | ⟨h2a, h2b⟩ <;>
        rcases ncExitCheck_length_cases (ncExitCheck (ncBody (tickAccum w e) e)).1 with
          h3 | ⟨h3a, h3b⟩ <;>
        [skip; skip; skip; skip; skip; skip; skip; skip;
          (rw [hmax] at h1a
           have h1c : (tickAccum w e).nodes.length < 20 := by exact_mod_cast h1a);
          (rw [hmax] at h1a
           have h1c : (tickAccum w e).nodes.length < 20 := by exact_mod_cast h1a);
          (rw [hmax] at h1a
           have h1c : (tickAccum w e).nodes.length < 20 := by exact_mod_cast h1a);
          (rw [hmax] at h1a
           have h1c : (tickAccum w e).nodes.length < 20 := by exact_mod_cast h1a)] <;>
        constructor <;> intro hb <;> omega
  · have hrf : w.state.isRunning = false := by
      revert hr
      cases w.state.isRunning <;> simp
    have ht : tick w e = (w, []) := by
      simp [tick, hrf]
    rw [ht]
    exact ⟨id, id⟩

theorem ticks_nodes_bounds (w : World) (es : List TickEnv)
    (hinit : w.state.initialNodeCount = 1) :
    (ticks w es).state.initialNodeCount = 1
    ∧ (2 ≤ w.nodes.length → 2 ≤ (ticks w es).nodes.length)
    ∧ (w.nodes.length ≤ 20 → (ticks w es).nodes.length ≤ 20) := by
  induction es generalizing w with
  | nil => exact ⟨hinit, id, id⟩
  | cons e es ih =>
    have hstep := tick_nodes_bounds w e hinit
    have hinit2 : (tick w e).1.state.initialNodeCount = 1 :=
      ((tick_preserves w e).2.2.2).trans hinit
    have hrest := ih (tick w e).1 hinit2
    exact ⟨hrest.1, fun h2 => hrest.2.1 (hstep.1 h2), fun h20 => hrest.2.2 (hstep.2 h20)⟩

/-- C2. From any state of the simulation whose `initialNodeCount` is the
startup value 1 (this field is never written, so it is 1 in every
reachable state): once the node count has reached 2 it never drops below
2 under any later sequence of ticks (in particular the NetworkChanges
mutations, the only ones that touch membership), and the node count
never exceeds `max(20, initialNodeCount · 1.5)`: removal is guarded by
`nodes.length > 2`, normal addition by `nodes.length < maxNodes`, and
the forced add fires only when fewer than 2 nodes exist. -/
theorem node_count_window (w : World) (es : List TickEnv)
    (hinit : w.state.initialNodeCount = 1) :
    (2 ≤ w.nodes.length → 2 ≤ (ticks w es).nodes.length)
    ∧ ((w.nodes.length : ℚ) ≤ maxNodesOf w.state →
        ((ticks w es).nodes.length : ℚ) ≤ maxNodesOf (ticks w es).state) := by
  have hmax1 : maxNodesOf w.state = 20 := maxNodesOf_init_one hinit
  have hb := ticks_nodes_bounds w es hinit
  have hmax2 : maxNodesOf (ticks w es).state = 20 := maxNodesOf_init_one hb.1
  refine ⟨hb.2.1, fun h => ?_⟩
  rw [hmax2]
  rw [hmax1] at h
  have h20 : w.nodes.length ≤ 20 := by exact_mod_cast h
  exact_mod_cast hb.2.2 h20

/-- Witness for C2 at the startup state and one concrete tick. -/
theorem node_count_window_witness :
    initialWorld.state.initialNodeCount = 1
    ∧ ((ticks initialWorld [trivialEnv]).nodes.length : ℚ) ≤
        maxNodesOf (ticks initialWorld [trivialEnv]).state :=
  ⟨rfl, (node_count_window initialWorld [trivialEnv] rfl).2
    (by rw [maxNodesOf_init_one rfl]; norm_num [initialWorld])⟩

/-- C5. From the startup state (one node `node-0`, phase NetworkChanges,
`phaseTimer` 6900, speed 1, running), a single tick with
`deltaMillis = 200` — whatever the random draws — accumulates the timer
to 7100 > 7000, performs no cadence mutation (7100 mod 2000 = 1100 is
not below 20), force-adds the second node `node-1` at the fixed
antipodal position (angle π on the radius-5 ring), and transitions to
Discovery with the timer reset to 0, leaving exactly 2 nodes. -/
theorem startup_first_tick (e : TickEnv) (hd : e.delta = 200) :
    (tick initialWorld e).1 =
      { state :=
          { speed := 1, isRunning := true, initialNodeCount := 1, nodeCount := 2,
            currentStep := 0, currentPhase := .discovery, isDarkMode := true,
            phaseTimer := 0 }
        nodes := [{ nodeId := "node-0", connections := [], pos := ⟨sceneRadius, 0⟩ },
          { nodeId := "node-1", connections := [], pos := ⟨sceneRadius, 1⟩ }] }
    ∧ (tick initialWorld e).2 = [.phaseChanged .discovery] := by
  constructor <;>
    norm_num [tick, tickAccum, initialWorld, ncBody, ncExitCheck, jsMod, ratFloor_eq, hd,
      forcedSecondNode, sceneRadius]

/-- Witness for C5 at a concrete environment with delta 200. -/
theorem startup_first_tick_witness :
    ({ trivialEnv with delta := 200 } : TickEnv).delta = 200
    ∧ (tick initialWorld { trivialEnv with delta := 200 }).1.nodes.length = 2
    ∧ (tick initialWorld { trivialEnv with delta := 200 }).1.state.currentPhase =
        .discovery :=
  ⟨rfl,
    by rw [(startup_first_tick { trivialEnv with delta := 200 } rfl).1]; rfl,
    by rw [(startup_first_tick { trivialEnv with delta := 200 } rfl).1]⟩
